import Mathlib

/-!
Verification of the Lyric_sync application core (`src/app.py`).

The Python source is shallowly embedded:
* Python floats are modelled as exact rationals (`ℚ`).
* Python strings are Lean `String`s; the helpers work on `List Char`
  (`String.data`) and are wrapped at the `String` level.
* `str.splitlines`, `str.strip`, `"\n".join`, the `%02d` / `%05.2f`
  format specifiers and the regex `\[(\d{2}):(\d{2}\.\d{2})\](.*)`
  (with `\d` taken as the ASCII digits) are modelled explicitly below.
* The Streamlit upload loop (app.py lines 72–121) is modelled as a fold
  over the batch of uploaded files; the external effects of a file
  (metadata probing and transcription, which may raise) are modelled by
  an `Option` field carrying the probed duration and the transcript
  segments, `none` standing for an exception anywhere in the `try` body.
-/

namespace LyricSync

/-! ### Character-level utilities -/

/-- The line-boundary characters of Python `str.splitlines`. -/
def isLineBreak (c : Char) : Bool :=
  c = '\n' || c = '\r' || c = '\x0b' || c = '\x0c' ||
  c = '\x1c' || c = '\x1d' || c = '\x1e' || c = '\x85' ||
  c = ' ' || c = ' '

/-- The whitespace characters stripped by Python `str.strip()`. -/
def pyIsSpace (c : Char) : Bool :=
  c = ' ' || c = '\t' || c = '\n' || c = '\x0b' || c = '\x0c' || c = '\r' ||
  c = '\x1c' || c = '\x1d' || c = '\x1e' || c = '\x1f' || c = '\x85' ||
  c = '\xa0' || c = ' ' || c = ' ' || c = ' ' || c = ' ' ||
  c = ' ' || c = ' ' || c = ' ' || c = ' ' || c = ' ' ||
  c = ' ' || c = ' ' || c = ' ' || c = ' ' || c = ' ' ||
  c = ' ' || c = ' ' || c = '　'

/-- The decimal digit character for a value `n < 10`. -/
def digitChar (n : ℕ) : Char := Char.ofNat (48 + n)

/-- The numeric value of a decimal digit character. -/
def digitVal (c : Char) : ℕ := c.toNat - 48

/-- Worker for the decimal representation: peel off the least significant
digit while fuel remains (any fuel above the number itself is enough). -/
def natToDigitsAux : ℕ → ℕ → List Char → List Char
  | 0, _, acc => acc
  | fuel + 1, n, acc =>
    if n < 10 then digitChar n :: acc
    else natToDigitsAux fuel (n / 10) (digitChar (n % 10) :: acc)

/-- Decimal representation of a natural number (most significant digit
first), as produced by Python's integer formatting. -/
def natToDigits (n : ℕ) : List Char := natToDigitsAux (n + 1) n []

/-- Left-pad a character list with `'0'` to width `w` (Python `0`-fill). -/
def padZeros (w : ℕ) (l : List Char) : List Char :=
  List.replicate (w - l.length) '0' ++ l

/-- Python `f"{n:02d}"` for an integer `n`: zero-fill to total width 2
(the sign, when present, counts towards the width). -/
def pyFormat02d (n : ℤ) : List Char :=
  if n < 0 then '-' :: padZeros 1 (natToDigits (-n).toNat)
  else padZeros 2 (natToDigits n.toNat)

/-- Round a rational to the nearest integer, ties to even — the rounding
used by Python's fixed-point float formatting. -/
def roundTE (q : ℚ) : ℤ :=
  if q - ⌊q⌋ < 1 / 2 then ⌊q⌋
  else if 1 / 2 < q - ⌊q⌋ then ⌊q⌋ + 1
  else if ⌊q⌋ % 2 = 0 then ⌊q⌋ else ⌊q⌋ + 1

/-- The centisecond count written for a (nonnegative) seconds value by
`f"{seconds:05.2f}"`. -/
def secondsCenti (r : ℚ) : ℕ := (roundTE (100 * r)).toNat

/-- Python `f"{r:05.2f}"` for a nonnegative rational `r`: two decimal
places, zero-filled to total width 5. -/
def format052f (r : ℚ) : List Char :=
  padZeros 5 (natToDigits (secondsCenti r / 100) ++
    '.' :: padZeros 2 (natToDigits (secondsCenti r % 100)))

/-- Python `str.strip()` on a character list. -/
def stripChars (l : List Char) : List Char :=
  ((l.dropWhile pyIsSpace).reverse.dropWhile pyIsSpace).reverse

/-- Python `str.strip()`. -/
def pyStrip (s : String) : String := ⟨stripChars s.data⟩

/-! ### The formatter `generate_lrc_content` (app.py lines 32–40) -/

/-- A transcription segment as returned by `whisper.transcribe`:
`{"start": float, "text": str}`. -/
structure TranscriptSegment where
  start : ℚ
  text : String
deriving DecidableEq

/-- The line built for one segment by the body of the loop in
`generate_lrc_content`: with `minutes, seconds = divmod(start, 60)`,
the characters of `f"[{int(minutes):02d}:{seconds:05.2f}]{text.strip()}"`. -/
def fmtSegChars (seg : TranscriptSegment) : List Char :=
  '[' :: (pyFormat02d ⌊seg.start / 60⌋ ++
    ':' :: (format052f (seg.start - 60 * ⌊seg.start / 60⌋) ++
      ']' :: stripChars seg.text.data))

/-- Python `"\n".join` on character lists. -/
def joinNl : List (List Char) → List Char
  | [] => []
  | [l] => l
  | l :: l' :: ls => l ++ '\n' :: joinNl (l' :: ls)

/-- Python `"\n".join` on strings. -/
def pyJoinNl : List String → String
  | [] => ""
  | [l] => l
  | l :: l' :: ls => l ++ "\n" ++ pyJoinNl (l' :: ls)

/-- `generate_lrc_content(segments)` (app.py lines 32–40). -/
def generate_lrc_content (segments : List TranscriptSegment) : String :=
  ⟨joinNl (segments.map fmtSegChars)⟩

/-! ### The parser `parse_lrc` (app.py lines 43–51) -/

/-- Worker for Python `str.splitlines`: `acc` holds the (reversed)
characters of the current line and `afterCr` records that the previous
character was a `'\r'` whose line was just emitted, so that a directly
following `'\n'` (the `"\r\n"` pair) is consumed silently. -/
def slGo : List Char → Bool → List Char → List (List Char)
  | [], _, acc => if acc.isEmpty then [] else [acc.reverse]
  | c :: cs, afterCr, acc =>
    if afterCr = true ∧ c = '\n' then slGo cs false acc
    else if isLineBreak c then acc.reverse :: slGo cs (decide (c = '\r')) []
    else slGo cs false (c :: acc)

/-- Python `str.splitlines` on a character list. -/
def pySplitlinesChars (l : List Char) : List (List Char) := slGo l false []

/-- Python `str.splitlines`. -/
def pySplitlines (s : String) : List String :=
  (pySplitlinesChars s.data).map fun l => (⟨l⟩ : String)

/-- The per-line match of `re.match(r"\[(\d{2}):(\d{2}\.\d{2})\](.*)", line)`
together with the entry built from it:
`(int(minutes) * 60 + float(seconds), text)`. `none` models a failed
match. -/
def parseLineChars (l : List Char) : Option (ℚ × List Char) :=
  match l with
  | c0 :: c1 :: c2 :: c3 :: c4 :: c5 :: c6 :: c7 :: c8 :: c9 :: rest =>
    if c0 = '[' ∧ c1.isDigit ∧ c2.isDigit ∧ c3 = ':' ∧ c4.isDigit ∧
        c5.isDigit ∧ c6 = '.' ∧ c7.isDigit ∧ c8.isDigit ∧ c9 = ']' then
      some (((10 * digitVal c1 + digitVal c2 : ℕ) : ℚ) * 60 +
        ((10 * digitVal c4 + digitVal c5 : ℕ) : ℚ) +
        ((10 * digitVal c7 + digitVal c8 : ℕ) : ℚ) / 100, rest)
    else none
  | _ => none

/-- The per-line match at the `String` level. -/
def parseLine (s : String) : Option (ℚ × String) :=
  (parseLineChars s.data).map fun p => (p.1, (⟨p.2⟩ : String))

/-- `parse_lrc(lrc_text)` (app.py lines 43–51). -/
def parse_lrc (lrc_text : String) : List (ℚ × String) :=
  (pySplitlines lrc_text).filterMap parseLine

/-! ### The synchronisation loop (app.py lines 160–186) -/

/-- Worker for the active-line scan (app.py lines 168–173): walk the
track, remembering the last text whose offset has been reached, and
stop at the first offset that exceeds the elapsed time. -/
def activeLineGo (t : ℚ) : List (ℚ × String) → String → String
  | [], cur => cur
  | (off, txt) :: rest, cur =>
    if off ≤ t then activeLineGo t rest txt else cur

/-- The `current_lyric` computed by the sync loop for elapsed time `t`. -/
def activeLine (track : List (ℚ × String)) (t : ℚ) : String :=
  activeLineGo t track ""

/-- The HTML built for one lyric line (app.py lines 176–180): highlighted
when its text equals the current lyric. -/
def renderLineHtml (current text : String) : String :=
  if text == current then "<mark><b>" ++ text ++ "</b></mark><br>"
  else "<span style=\x27color: #888;\x27>" ++ text ++ "</span><br>"

/-- The `full_text_html` string built by the rendering loop. -/
def fullTextHtml (track : List (ℚ × String)) (current : String) : String :=
  String.join (track.map fun p => renderLineHtml current p.2)

/-- The progress fraction (app.py line 162):
`min(current_playback_time / duration, 1.0)`. -/
def progress (elapsed duration : ℚ) : ℚ := min (elapsed / duration) 1

/-- Modelled from the spec's words, for comparison with the code's scan
(§4.3): "the active line is the text of the last line whose
offset ≤ elapsedSeconds", empty when there is none. -/
def specLastTextLE (track : List (ℚ × String)) (t : ℚ) : String :=
  (((track.filter fun p => decide (p.1 ≤ t)).getLast?).map Prod.snd).getD ""

/-- The value parsed back from the formatted time of a segment starting
at `start` (onto which the formatter rounds the remainder to
centiseconds). -/
def parsedOffset (start : ℚ) : ℚ :=
  60 * ⌊start / 60⌋ +
    (secondsCenti (start - 60 * ⌊start / 60⌋) : ℚ) / 100

/-! ### The upload loop (app.py lines 72–121) -/

/-- A processed song record (app.py lines 103–110); the scratch file path
is a filesystem detail and is omitted. -/
structure Song where
  name : String
  duration : ℚ
  lrc_data : String
deriving DecidableEq

/-- One uploaded file. `result` models the outcome of the effectful part
of the per-file `try` body: `some (duration, segments)` when metadata
probing and transcription succeed, `none` when any of it raises. -/
structure UploadFile where
  name : String
  result : Option (ℚ × List TranscriptSegment)
deriving DecidableEq

/-- One iteration of the upload loop (app.py lines 75–118) over the state
(current song list, names reported with an error); `processedNames` is
the snapshot taken before the loop (line 74). -/
def uploadStep (processedNames : List String)
    (st : List Song × List String) (f : UploadFile) :
    List Song × List String :=
  if f.name ∈ processedNames then st
  else
    match f.result with
    | some (dur, segs) =>
      (st.1 ++ [⟨f.name, dur, generate_lrc_content segs⟩], st.2)
    | none => (st.1, st.2 ++ [f.name])

/-- The whole upload batch (app.py lines 72–121): snapshot the processed
names, then fold the loop body over the uploaded files. Returns the
final song collection and the names reported with an error. -/
def processBatch (songs : List Song) (files : List UploadFile) :
    List Song × List String :=
  files.foldl (uploadStep (songs.map Song.name)) (songs, [])

/-! ### Digit and decimal-representation lemmas -/

/-- The numeric value of a digit string, most significant digit first. -/
def digitsVal (l : List Char) : ℕ :=
  l.foldl (fun a c => 10 * a + digitVal c) 0

theorem digitVal_digitChar : ∀ n < 10, digitVal (digitChar n) = n := by decide

theorem isDigit_digitChar : ∀ n < 10, (digitChar n).isDigit = true := by decide

theorem isLineBreak_digitChar : ∀ n < 10, isLineBreak (digitChar n) = false := by
  decide

theorem natToDigitsAux_acc :
    ∀ (fuel n : ℕ) (acc : List Char),
      natToDigitsAux fuel n acc = natToDigitsAux fuel n [] ++ acc := by
  intro fuel
  induction fuel with
  | zero => intro n acc; rfl
  | succ fuel ih =>
    intro n acc
    rw [natToDigitsAux, natToDigitsAux]
    by_cases h : n < 10
    · simp [h]
    · simp only [h, if_false]
      rw [ih (n / 10) (digitChar (n % 10) :: acc), ih (n / 10) [digitChar (n % 10)]]
      simp

theorem natToDigitsAux_fuel :
    ∀ (n f1 f2 : ℕ) (acc : List Char), n < f1 → n < f2 →
      natToDigitsAux f1 n acc = natToDigitsAux f2 n acc := by
  intro n
  induction n using Nat.strong_induction_on with
  | _ n ih =>
    intro f1 f2 acc h1 h2
    cases f1 with
    | zero => omega
    | succ g1 =>
      cases f2 with
      | zero => omega
      | succ g2 =>
        rw [natToDigitsAux, natToDigitsAux]
        by_cases h : n < 10
        · simp [h]
        · simp only [h, if_false]
          have hdiv : n / 10 < n := Nat.div_lt_self (by omega) (by omega)
          exact ih (n / 10) hdiv g1 g2 _ (by omega) (by omega)

/-- The defining recursion of the decimal representation. -/
theorem natToDigits_eq (n : ℕ) :
    natToDigits n = if n < 10 then [digitChar n]
      else natToDigits (n / 10) ++ [digitChar (n % 10)] := by
  rw [natToDigits, natToDigitsAux]
  by_cases h : n < 10
  · simp [h]
  · simp only [h, if_false]
    rw [natToDigitsAux_acc n (n / 10) [digitChar (n % 10)]]
    have hdiv : n / 10 < n := Nat.div_lt_self (by omega) (by omega)
    rw [natToDigitsAux_fuel (n / 10) n (n / 10 + 1) [] (by omega) (by omega)]
    rfl

theorem natToDigits_lt10 {n : ℕ} (h : n < 10) : natToDigits n = [digitChar n] := by
  rw [natToDigits_eq]
  simp [h]

theorem natToDigits_ge10 {n : ℕ} (h : ¬n < 10) :
    natToDigits n = natToDigits (n / 10) ++ [digitChar (n % 10)] := by
  rw [natToDigits_eq]
  simp [h]

theorem length_natToDigits_pos (n : ℕ) : 0 < (natToDigits n).length := by
  by_cases h : n < 10
  · simp [natToDigits_lt10 h]
  · simp [natToDigits_ge10 h]

theorem natToDigits_lt100 {n : ℕ} (h : n < 100) :
    natToDigits n = if n < 10 then [digitChar n]
      else [digitChar (n / 10), digitChar (n % 10)] := by
  by_cases h10 : n < 10
  · simp [natToDigits_lt10 h10, h10]
  · rw [natToDigits_ge10 h10, natToDigits_lt10 (by omega)]
    simp [h10]

theorem padZeros_two_natToDigits {n : ℕ} (h : n < 100) :
    padZeros 2 (natToDigits n) = [digitChar (n / 10), digitChar (n % 10)] := by
  rw [natToDigits_lt100 h]
  by_cases h10 : n < 10
  · have hd : n / 10 = 0 := by omega
    have hm : n % 10 = n := by omega
    simp [h10, padZeros, hd, hm, List.replicate]
    rfl
  · simp [h10, padZeros]

theorem digitsVal_natToDigits (n : ℕ) : digitsVal (natToDigits n) = n := by
  induction n using Nat.strong_induction_on with
  | _ n ih =>
    by_cases h : n < 10
    · rw [natToDigits_lt10 h]
      simp [digitsVal, digitVal_digitChar n h]
    · rw [natToDigits_ge10 h]
      have ihd := ih (n / 10) (Nat.div_lt_self (by omega) (by omega))
      simp only [digitsVal, List.foldl_append, List.foldl_cons, List.foldl_nil]
      simp only [digitsVal] at ihd
      rw [ihd, digitVal_digitChar _ (by omega)]
      omega

theorem digitsVal_padZeros (w : ℕ) (l : List Char) :
    digitsVal (padZeros w l) = digitsVal l := by
  have hz : ∀ k, List.foldl (fun a c => 10 * a + digitVal c) 0
      (List.replicate k '0') = 0 := by
    intro k
    induction k with
    | zero => simp
    | succ k ihk => simpa [List.replicate, digitVal] using ihk
  simp [digitsVal, padZeros, List.foldl_append, hz]

theorem three_le_length_natToDigits {n : ℕ} (h : 100 ≤ n) :
    3 ≤ (natToDigits n).length := by
  rw [natToDigits_ge10 (by omega), natToDigits_ge10 (by omega)]
  have := length_natToDigits_pos (n / 10 / 10)
  simp
  omega

theorem mem_natToDigits (n : ℕ) :
    ∀ c ∈ natToDigits n, ∃ k, k < 10 ∧ c = digitChar k := by
  induction n using Nat.strong_induction_on with
  | _ n ih =>
    intro c hc
    by_cases h : n < 10
    · rw [natToDigits_lt10 h] at hc
      simp at hc
      exact ⟨n, h, hc⟩
    · rw [natToDigits_ge10 h] at hc
      rcases List.mem_append.mp hc with hc | hc
      · exact ih (n / 10) (Nat.div_lt_self (by omega) (by omega)) c hc
      · simp at hc
        exact ⟨n % 10, by omega, hc⟩

theorem mem_padZeros {w : ℕ} {l : List Char} {c : Char}
    (hc : c ∈ padZeros w l) : c = '0' ∨ c ∈ l := by
  rcases List.mem_append.mp hc with h | h
  · exact Or.inl (List.eq_of_mem_replicate h)
  · exact Or.inr h

/-! ### Rounding and time-field lemmas -/

theorem abs_roundTE_sub_le (q : ℚ) : |(roundTE q : ℚ) - q| ≤ 1 / 2 := by
  have h1 : (⌊q⌋ : ℚ) ≤ q := Int.floor_le q
  have h2 : q < ⌊q⌋ + 1 := Int.lt_floor_add_one q
  rw [roundTE]
  split
  · rw [abs_le]; constructor <;> linarith
  · split
    · rw [abs_le]; constructor <;> first | linarith | (push_cast; linarith)
    · split <;> · rw [abs_le]; constructor <;> first | linarith | (push_cast; linarith)

theorem roundTE_nonneg {q : ℚ} (h : 0 ≤ q) : 0 ≤ roundTE q := by
  have h1 : (0 : ℤ) ≤ ⌊q⌋ := Int.floor_nonneg.mpr h
  rw [roundTE]
  split
  · exact h1
  · split
    · omega
    · split <;> omega

theorem roundTE_le {q : ℚ} {b : ℤ} (h : q < b) : roundTE q ≤ b := by
  have h1 : ⌊q⌋ ≤ b - 1 := by
    have := Int.floor_le_floor h.le
    have hb : ⌊(b : ℚ)⌋ = b := Int.floor_intCast b
    have hlt : ⌊q⌋ < b := Int.floor_lt.mpr (by exact_mod_cast h)
    omega
  rw [roundTE]
  split
  · omega
  · split
    · omega
    · split <;> omega

/-- The remainder computed by `divmod(start, 60)` lies in `[0, 60)`. -/
theorem remainder_bounds (s : ℚ) :
    0 ≤ s - 60 * ⌊s / 60⌋ ∧ s - 60 * ⌊s / 60⌋ < 60 := by
  have h1 : (⌊s / 60⌋ : ℚ) ≤ s / 60 := Int.floor_le _
  have h2 : s / 60 < ⌊s / 60⌋ + 1 := Int.lt_floor_add_one _
  constructor <;> nlinarith

theorem secondsCenti_cast {r : ℚ} (h : 0 ≤ r) :
    (secondsCenti r : ℚ) = ((roundTE (100 * r) : ℤ) : ℚ) := by
  rw [secondsCenti]
  have h1 : 0 ≤ roundTE (100 * r) := roundTE_nonneg (by positivity)
  have h2 : ((roundTE (100 * r)).toNat : ℤ) = roundTE (100 * r) :=
    Int.toNat_of_nonneg h1
  exact_mod_cast h2

theorem secondsCenti_le {r : ℚ} (h60 : r < 60) :
    secondsCenti r ≤ 6000 := by
  rw [secondsCenti]
  have hle : roundTE (100 * r) ≤ 6000 := roundTE_le (by push_cast; linarith)
  omega

theorem abs_secondsCenti_sub_le {r : ℚ} (h : 0 ≤ r) :
    |(secondsCenti r : ℚ) / 100 - r| ≤ 1 / 200 := by
  rw [secondsCenti_cast h]
  have hb := abs_roundTE_sub_le (100 * r)
  rw [abs_le] at hb ⊢
  constructor <;> [linarith [hb.1]; linarith [hb.2]]

/-- The five characters written by `f"{r:05.2f}"` for `r < 60`. -/
theorem format052f_eq {r : ℚ} (h60 : r < 60) :
    format052f r =
      [digitChar (secondsCenti r / 100 / 10), digitChar (secondsCenti r / 100 % 10),
       '.', digitChar (secondsCenti r % 100 / 10), digitChar (secondsCenti r % 100 % 10)] := by
  have hc : secondsCenti r ≤ 6000 := secondsCenti_le h60
  have hw : secondsCenti r / 100 < 100 := by omega
  have hf : secondsCenti r % 100 < 100 := by omega
  rw [format052f, padZeros_two_natToDigits hf, natToDigits_lt100 hw]
  by_cases h10 : secondsCenti r / 100 < 10
  · have hd : secondsCenti r / 100 / 10 = 0 := by omega
    have hm : secondsCenti r / 100 % 10 = secondsCenti r / 100 := by omega
    simp [h10, padZeros, hd, hm, List.replicate]
    rfl
  · simp [h10, padZeros]

/-- The two characters written by `f"{int(minutes):02d}"` when
`0 ≤ minutes < 100`. -/
theorem pyFormat02d_eq {m : ℤ} (h0 : 0 ≤ m) (h100 : m < 100) :
    pyFormat02d m = [digitChar (m.toNat / 10), digitChar (m.toNat % 10)] := by
  rw [pyFormat02d, if_neg (by omega)]
  exact padZeros_two_natToDigits (by omega)

theorem minutes_nonneg {s : ℚ} (h : 0 ≤ s) : 0 ≤ ⌊s / 60⌋ :=
  Int.floor_nonneg.mpr (by positivity)

theorem minutes_lt_100 {s : ℚ} (h : s < 6000) : ⌊s / 60⌋ < 100 :=
  Int.floor_lt.mpr (by push_cast; linarith)

/-- Explicit ten-character prefix of a formatted line when the start time
is in `[0, 6000)` (minutes below 100). -/
theorem fmtSegChars_eq {seg : TranscriptSegment} (h0 : 0 ≤ seg.start)
    (h6000 : seg.start < 6000) :
    fmtSegChars seg =
      '[' :: digitChar (⌊seg.start / 60⌋.toNat / 10) ::
      digitChar (⌊seg.start / 60⌋.toNat % 10) :: ':' ::
      digitChar (secondsCenti (seg.start - 60 * ⌊seg.start / 60⌋) / 100 / 10) ::
      digitChar (secondsCenti (seg.start - 60 * ⌊seg.start / 60⌋) / 100 % 10) :: '.' ::
      digitChar (secondsCenti (seg.start - 60 * ⌊seg.start / 60⌋) % 100 / 10) ::
      digitChar (secondsCenti (seg.start - 60 * ⌊seg.start / 60⌋) % 100 % 10) :: ']' ::
      stripChars seg.text.data := by
  obtain ⟨hr0, hr60⟩ := remainder_bounds seg.start
  rw [fmtSegChars, pyFormat02d_eq (minutes_nonneg h0) (minutes_lt_100 h6000),
    format052f_eq hr60]
  simp

/-! ### `splitlines` / `join` lemmas -/

theorem slGo_append_newline {l : List Char} (rest : List Char) (acc : List Char)
    (hb : ∀ c ∈ l, isLineBreak c = false) :
    slGo (l ++ '\n' :: rest) false acc = (acc.reverse ++ l) :: slGo rest false [] := by
  induction l generalizing acc with
  | nil =>
    simp only [List.nil_append]
    rw [slGo]
    simp [show isLineBreak '\n' = true from by decide,
      show ('\n' = '\r') = False from by decide]
  | cons c l ih =>
    have hc : isLineBreak c = false := hb c (by simp)
    simp only [List.cons_append]
    rw [slGo]
    simp only [Bool.false_eq_true, false_and, if_false, hc]
    rw [ih (c :: acc) (fun d hd => hb d (by simp [hd]))]
    simp

theorem slGo_nobreak {l : List Char} (acc : List Char)
    (hb : ∀ c ∈ l, isLineBreak c = false) :
    slGo l false acc = if acc.reverse ++ l = [] then [] else [acc.reverse ++ l] := by
  induction l generalizing acc with
  | nil =>
    rw [slGo]
    cases acc <;> simp
  | cons c l ih =>
    have hc : isLineBreak c = false := hb c (by simp)
    rw [slGo]
    simp only [Bool.false_eq_true, false_and, if_false, hc]
    rw [ih (c :: acc) (fun d hd => hb d (by simp [hd]))]
    simp

/-- `splitlines` is a left inverse of `"\n".join` on nonempty
line-break-free lines. -/
theorem splitlines_joinNl {ls : List (List Char)}
    (hb : ∀ l ∈ ls, ∀ c ∈ l, isLineBreak c = false)
    (hne : ∀ l ∈ ls, l ≠ []) :
    pySplitlinesChars (joinNl ls) = ls := by
  induction ls with
  | nil =>
    rw [joinNl, pySplitlinesChars, slGo]
    simp
  | cons l ls ih =>
    cases ls with
    | nil =>
      rw [joinNl, pySplitlinesChars, slGo_nobreak [] (hb l (by simp))]
      simp [hne l (by simp)]
    | cons l' ls' =>
      rw [joinNl, pySplitlinesChars,
        slGo_append_newline _ [] (hb l (by simp))]
      rw [pySplitlinesChars] at ih
      simp only [List.reverse_nil, List.nil_append]
      rw [ih (fun m hm => hb m (by simp [hm])) (fun m hm => hne m (by simp [hm]))]

/-- Up to entries parsed out of each line, `splitlines ∘ join` is the
identity even when the final line is empty (an empty line matches no
entry). -/
theorem filterMap_splitlines_joinNl {ls : List (List Char)}
    (hb : ∀ l ∈ ls, ∀ c ∈ l, isLineBreak c = false) :
    (pySplitlinesChars (joinNl ls)).filterMap parseLineChars =
      ls.filterMap parseLineChars := by
  induction ls with
  | nil =>
    rw [joinNl, pySplitlinesChars, slGo]
    simp
  | cons l ls ih =>
    cases ls with
    | nil =>
      rw [joinNl, pySplitlinesChars, slGo_nobreak [] (hb l (by simp))]
      by_cases h : l = []
      · subst h
        simp [parseLineChars]
      · simp [h]
    | cons l' ls' =>
      rw [joinNl, pySplitlinesChars,
        slGo_append_newline _ [] (hb l (by simp))]
      rw [pySplitlinesChars] at ih
      simp only [List.reverse_nil, List.nil_append, List.filterMap_cons]
      rw [ih (fun m hm => hb m (by simp [hm]))]
      rw [List.filterMap_cons]

theorem pyJoinNl_data (ls : List String) :
    (pyJoinNl ls).data = joinNl (ls.map String.data) := by
  induction ls with
  | nil => rfl
  | cons l ls ih =>
    cases ls with
    | nil => rfl
    | cons l' ls' =>
      simp only [List.map_cons] at ih ⊢
      rw [pyJoinNl, joinNl, ← ih]
      simp

/-- `parse_lrc` reduced to the character level. -/
theorem parse_lrc_eq_chars (s : String) :
    parse_lrc s = ((pySplitlinesChars s.data).filterMap parseLineChars).map
      (fun p => (p.1, (⟨p.2⟩ : String))) := by
  rw [parse_lrc, pySplitlines, List.filterMap_map, List.map_filterMap]
  rfl

/-! ### Formatted lines parse back -/

theorem noBreak_pyFormat02d (m : ℤ) :
    ∀ c ∈ pyFormat02d m, isLineBreak c = false := by
  intro c hc
  rw [pyFormat02d] at hc
  split at hc
  · rcases List.mem_cons.mp hc with h | h
    · subst h; decide
    · rcases mem_padZeros h with h | h
      · subst h; decide
      · obtain ⟨k, hk, rfl⟩ := mem_natToDigits _ c h
        exact isLineBreak_digitChar k hk
  · rcases mem_padZeros hc with h | h
    · subst h; decide
    · obtain ⟨k, hk, rfl⟩ := mem_natToDigits _ c h
      exact isLineBreak_digitChar k hk

theorem noBreak_format052f (r : ℚ) :
    ∀ c ∈ format052f r, isLineBreak c = false := by
  intro c hc
  rw [format052f] at hc
  rcases mem_padZeros hc with h | h
  · subst h; decide
  · rcases List.mem_append.mp h with h | h
    · obtain ⟨k, hk, rfl⟩ := mem_natToDigits _ c h
      exact isLineBreak_digitChar k hk
    · rcases List.mem_cons.mp h with h | h
      · subst h; decide
      · rcases mem_padZeros h with h | h
        · subst h; decide
        · obtain ⟨k, hk, rfl⟩ := mem_natToDigits _ c h
          exact isLineBreak_digitChar k hk

/-- A formatted line contains no line-boundary character as long as the
stripped text does not. -/
theorem noBreak_fmtSegChars {seg : TranscriptSegment}
    (hb : ∀ c ∈ stripChars seg.text.data, isLineBreak c = false) :
    ∀ c ∈ fmtSegChars seg, isLineBreak c = false := by
  intro c hc
  rw [fmtSegChars] at hc
  rcases List.mem_cons.mp hc with h | h
  · subst h; decide
  rcases List.mem_append.mp h with h | h
  · exact noBreak_pyFormat02d _ c h
  rcases List.mem_cons.mp h with h | h
  · subst h; decide
  rcases List.mem_append.mp h with h | h
  · exact noBreak_format052f _ c h
  rcases List.mem_cons.mp h with h | h
  · subst h; decide
  · exact hb c h

theorem fmtSegChars_ne_nil (seg : TranscriptSegment) : fmtSegChars seg ≠ [] := by
  rw [fmtSegChars]
  simp

/-- The regex match succeeds on a formatted line with minutes below 100
and recovers the rounded time and the stripped text verbatim. -/
theorem parseLineChars_fmtSeg {seg : TranscriptSegment} (h0 : 0 ≤ seg.start)
    (h6000 : seg.start < 6000) :
    parseLineChars (fmtSegChars seg) =
      some (parsedOffset seg.start, stripChars seg.text.data) := by
  have hM : ⌊seg.start / 60⌋.toNat < 100 := by
    have h1 := minutes_lt_100 h6000
    have h2 := minutes_nonneg h0
    omega
  obtain ⟨hr0, hr60⟩ := remainder_bounds seg.start
  have hC : secondsCenti (seg.start - 60 * ⌊seg.start / 60⌋) ≤ 6000 :=
    secondsCenti_le hr60
  rw [fmtSegChars_eq h0 h6000]
  rw [parseLineChars]
  rw [if_pos ⟨rfl, isDigit_digitChar _ (by omega), isDigit_digitChar _ (by omega),
    rfl, isDigit_digitChar _ (by omega), isDigit_digitChar _ (by omega), rfl,
    isDigit_digitChar _ (by omega), isDigit_digitChar _ (by omega), rfl⟩]
  congr 1
  rw [digitVal_digitChar _ (by omega), digitVal_digitChar _ (by omega),
    digitVal_digitChar _ (by omega), digitVal_digitChar _ (by omega),
    digitVal_digitChar _ (by omega), digitVal_digitChar _ (by omega)]
  congr 1
  set M := ⌊seg.start / 60⌋.toNat with hMdef
  set C := secondsCenti (seg.start - 60 * ⌊seg.start / 60⌋) with hCdef
  have hMe : 10 * (M / 10) + M % 10 = M := by omega
  have hWe : 10 * (C / 100 / 10) + C / 100 % 10 = C / 100 := by omega
  have hFe : 10 * (C % 100 / 10) + C % 100 % 10 = C % 100 := by omega
  rw [hMe, hWe, hFe, parsedOffset]
  have hMcast : (M : ℚ) = (⌊seg.start / 60⌋ : ℚ) := by
    have := Int.toNat_of_nonneg (minutes_nonneg h0)
    rw [hMdef]
    exact_mod_cast this
  have hCsplit : (C : ℚ) = 100 * (C / 100 : ℕ) + (C % 100 : ℕ) := by
    exact_mod_cast (Nat.div_add_mod C 100).symm
  rw [hMcast]
  field_simp
  nlinarith [hCsplit]

/-- Parsing the output of the formatter on a single segment with start in
`[0, 6000)` and line-break-free stripped text yields exactly one entry:
the centisecond-rounded time and the stripped text. -/
theorem parse_generate_single {seg : TranscriptSegment} (h0 : 0 ≤ seg.start)
    (h6000 : seg.start < 6000)
    (hb : ∀ c ∈ stripChars seg.text.data, isLineBreak c = false) :
    parse_lrc (generate_lrc_content [seg]) =
      [(parsedOffset seg.start, pyStrip seg.text)] := by
  rw [parse_lrc_eq_chars]
  have hdata : (generate_lrc_content [seg]).data = fmtSegChars seg := by
    rw [generate_lrc_content]
    simp [joinNl]
  rw [hdata, pySplitlinesChars, slGo_nobreak [] (noBreak_fmtSegChars hb)]
  simp only [List.reverse_nil, List.nil_append, fmtSegChars_ne_nil seg, if_false]
  rw [List.filterMap_cons, parseLineChars_fmtSeg h0 h6000]
  rfl

/-! ### Active-line scan lemmas -/

theorem activeLineGo_eq_lastLE {track : List (ℚ × String)} {t : ℚ}
    (hs : track.Pairwise fun p q => p.1 ≤ q.1) (cur : String) :
    activeLineGo t track cur =
      (((track.filter fun p => decide (p.1 ≤ t)).getLast?).map Prod.snd).getD cur := by
  induction track generalizing cur with
  | nil => simp [activeLineGo]
  | cons p rest ih =>
    obtain ⟨hhead, htail⟩ := List.pairwise_cons.mp hs
    obtain ⟨off, txt⟩ := p
    by_cases h : off ≤ t
    · rw [show activeLineGo t ((off, txt) :: rest) cur = activeLineGo t rest txt
        from by rw [activeLineGo]; simp [h]]
      rw [ih htail txt]
      rw [List.filter_cons_of_pos (by simpa using h)]
      cases hf : rest.filter fun p => decide (p.1 ≤ t) with
      | nil => simp
      | cons q qs =>
        cases hlast : (q :: qs).getLast? with
        | none => simp at hlast
        | some x => simp [List.getLast?_cons_cons, hlast]
    · rw [show activeLineGo t ((off, txt) :: rest) cur = cur
        from by rw [activeLineGo]; simp [h]]
      rw [List.filter_cons_of_neg (by simpa using h)]
      have hnil : (rest.filter fun p => decide (p.1 ≤ t)) = [] := by
        rw [List.filter_eq_nil_iff]
        intro q hq
        have := hhead q hq
        simp only [decide_eq_true_eq]
        intro hqt
        exact h (le_trans this hqt)
      rw [hnil]
      simp

/-- Before the first line's offset the scan returns the empty string,
whatever the rest of the track looks like. -/
theorem activeLine_before_first {track : List (ℚ × String)} {t : ℚ}
    {p₀ : ℚ × String} (hh : track.head? = some p₀) (ht : t < p₀.1) :
    activeLine track t = "" := by
  cases track with
  | nil => simp at hh
  | cons q rest =>
    obtain ⟨off, txt⟩ := q
    simp only [List.head?_cons, Option.some_inj] at hh
    subst hh
    rw [activeLine, activeLineGo]
    simp only [not_le.mpr ht, if_false]

/-! ### Upload-loop lemmas -/

theorem uploadStep_skip {pN : List String} {st : List Song × List String}
    {f : UploadFile} (h : f.name ∈ pN) : uploadStep pN st f = st := by
  simp [uploadStep, h]

theorem uploadStep_err {pN : List String} {st : List Song × List String}
    {f : UploadFile} (h1 : f.name ∉ pN) (h2 : f.result = none) :
    uploadStep pN st f = (st.1, st.2 ++ [f.name]) := by
  simp [uploadStep, h1, h2]

theorem uploadStep_some {pN : List String} {st : List Song × List String}
    {f : UploadFile} {dur : ℚ} {segs : List TranscriptSegment}
    (h1 : f.name ∉ pN) (h2 : f.result = some (dur, segs)) :
    uploadStep pN st f =
      (st.1 ++ [⟨f.name, dur, generate_lrc_content segs⟩], st.2) := by
  simp [uploadStep, h1, h2]

/-- The song component of one step depends only on the song component of
the state. -/
theorem uploadStep_fst (pN : List String) (S : List Song) (E E' : List String)
    (f : UploadFile) :
    (uploadStep pN (S, E) f).1 = (uploadStep pN (S, E') f).1 := by
  by_cases h : f.name ∈ pN
  · rw [uploadStep_skip h, uploadStep_skip h]
  · cases hr : f.result with
    | none => rw [uploadStep_err h hr, uploadStep_err h hr]
    | some v =>
      obtain ⟨dur, segs⟩ := v
      rw [uploadStep_some h hr, uploadStep_some h hr]

/-- The final song collection does not depend on the error component of
the starting state. -/
theorem foldl_uploadStep_fst (l : List UploadFile) (pN : List String)
    (S : List Song) (E E' : List String) :
    (l.foldl (uploadStep pN) (S, E)).1 = (l.foldl (uploadStep pN) (S, E')).1 := by
  induction l generalizing S E E' with
  | nil => rfl
  | cons f l ih =>
    simp only [List.foldl_cons]
    rw [show uploadStep pN (S, E) f =
      ((uploadStep pN (S, E) f).1, (uploadStep pN (S, E) f).2) from rfl]
    rw [show uploadStep pN (S, E') f =
      ((uploadStep pN (S, E') f).1, (uploadStep pN (S, E') f).2) from rfl]
    rw [uploadStep_fst pN S E E' f]
    exact ih _ _ _

/-- Error reports are never dropped by later iterations. -/
theorem foldl_uploadStep_err_mem (l : List UploadFile) (pN : List String)
    (S : List Song) (E : List String) {n : String} (h : n ∈ E) :
    n ∈ (l.foldl (uploadStep pN) (S, E)).2 := by
  induction l generalizing S E with
  | nil => exact h
  | cons f l ih =>
    simp only [List.foldl_cons]
    rw [show uploadStep pN (S, E) f =
      ((uploadStep pN (S, E) f).1, (uploadStep pN (S, E) f).2) from rfl]
    apply ih
    by_cases hin : f.name ∈ pN
    · rw [uploadStep_skip hin]; exact h
    · cases hr : f.result with
      | none => rw [uploadStep_err hin hr]; simp [h]
      | some v =>
        obtain ⟨dur, segs⟩ := v
        rw [uploadStep_some hin hr]; exact h

/-- Distinct batch names keep the collection's names distinct. -/
theorem foldl_uploadStep_nodup (pN : List String) :
    ∀ (files : List UploadFile) (S : List Song) (E : List String),
      (S.map Song.name).Nodup → (files.map UploadFile.name).Nodup →
      (∀ f ∈ files, f.name ∉ pN → f.name ∉ S.map Song.name) →
      ((files.foldl (uploadStep pN) (S, E)).1.map Song.name).Nodup := by
  intro files
  induction files with
  | nil => intro S E hS _ _; exact hS
  | cons f files ih =>
    intro S E hS hfiles hcond
    simp only [List.map_cons, List.nodup_cons] at hfiles
    simp only [List.foldl_cons]
    by_cases hin : f.name ∈ pN
    · rw [uploadStep_skip hin]
      exact ih S E hS hfiles.2 (fun g hg => hcond g (by simp [hg]))
    · cases hr : f.result with
      | none =>
        rw [uploadStep_err hin hr]
        exact ih S (E ++ [f.name]) hS hfiles.2 (fun g hg => hcond g (by simp [hg]))
      | some v =>
        obtain ⟨dur, segs⟩ := v
        rw [uploadStep_some hin hr]
        have hfn : f.name ∉ S.map Song.name := hcond f (by simp) hin
        apply ih
        · simp only [List.map_append, List.map_cons, List.map_nil]
          rw [List.nodup_append]
          exact ⟨hS, List.nodup_singleton _, by
            intro a ha hb
            simp only [List.mem_singleton] at hb
            subst hb
            exact hfn ha⟩
        · exact hfiles.2
        · intro g hg hgp
          have h1 : g.name ∉ S.map Song.name := hcond g (by simp [hg]) hgp
          have h2 : g.name ≠ f.name := by
            intro he
            exact hfiles.1 (he ▸ List.mem_map_of_mem UploadFile.name hg)
          simp only [List.map_append, List.map_cons, List.map_nil,
            List.mem_append, List.mem_singleton]
          rintro (hc | hc)
          · exact h1 hc
          · exact h2 hc

/-! ### Shared round-trip helpers -/

/-- The parsed-back time is within half a centisecond of the original
start time. -/
theorem abs_parsedOffset_sub_le (start : ℚ) :
    |parsedOffset start - start| ≤ 1 / 200 := by
  obtain ⟨hr0, _⟩ := remainder_bounds start
  have hb := abs_secondsCenti_sub_le hr0
  rw [parsedOffset, show 60 * (⌊start / 60⌋ : ℚ) +
      (secondsCenti (start - 60 * ⌊start / 60⌋) : ℚ) / 100 - start =
      (secondsCenti (start - 60 * ⌊start / 60⌋) : ℚ) / 100 -
        (start - 60 * ⌊start / 60⌋) from by ring]
  exact hb

/-- Parsing the join of line-break-free lines parses each line
independently, in order. -/
theorem parse_lrc_pyJoinNl {lines : List String}
    (hb : ∀ l ∈ lines, ∀ c ∈ l.data, isLineBreak c = false) :
    parse_lrc (pyJoinNl lines) = lines.filterMap parseLine := by
  rw [parse_lrc_eq_chars, pyJoinNl_data]
  rw [filterMap_splitlines_joinNl (by
    intro l hl c hc
    obtain ⟨s, hs, rfl⟩ := List.mem_map.mp hl
    exact hb s hs c hc)]
  rw [List.filterMap_map, List.map_filterMap]
  rfl

/-! ### Claim C1 -/

/-- C1 counterexample: the claim quantifies over every segment with
`start ≥ 0` and non-empty trimmed text, but a start of 6000 s (100
minutes) is formatted with a three-digit minutes field, which the
parser's two-digit pattern rejects, so the round trip yields no line at
all; moreover at `start = 1/64` the written offset is the *rounded*
centisecond value 0.02, which is not within 0.005 of the truncation
0.01. -/
theorem claim1_counterexample :
    parse_lrc (generate_lrc_content [⟨6000, "Hello"⟩]) = [] ∧
    parse_lrc (generate_lrc_content [⟨1 / 64, "a"⟩]) = [(1 / 50, "a")] ∧
    (⌊(100 : ℚ) * (1 / 64)⌋ : ℚ) / 100 = 1 / 100 ∧
    ¬(|(1 : ℚ) / 50 - 1 / 100| ≤ 1 / 200) := by decide!

/-- C1 (amended): for every TranscriptSegment with `0 ≤ start < 6000`
(minutes below 100) whose trimmed text is non-empty and contains no
line-boundary character, `parse_lrc (generate_lrc_content [segment])`
yields exactly one entry whose offset is `start` with its remainder
rounded to centiseconds — within 0.005 s of `start` — and whose text is
the trimmed original text; the two-segment end-to-end scenario holds as
stated. -/
theorem claim1_roundtrip_amended :
    (∀ (start : ℚ) (text : String), 0 ≤ start → start < 6000 →
      pyStrip text ≠ "" →
      (∀ c ∈ (pyStrip text).data, isLineBreak c = false) →
      parse_lrc (generate_lrc_content [⟨start, text⟩]) =
        [(parsedOffset start, pyStrip text)] ∧
      |parsedOffset start - start| ≤ 1 / 200) ∧
    generate_lrc_content [⟨0, " Hello "⟩, ⟨65.5, "world"⟩] =
      "[00:00.00]Hello\n[01:05.50]world" ∧
    parse_lrc "[00:00.00]Hello\n[01:05.50]world" =
      [(0, "Hello"), (65.5, "world")] := by
  refine ⟨fun start text h0 h6000 _ hb => ⟨?_, abs_parsedOffset_sub_le start⟩,
    by decide!, by decide!⟩
  exact parse_generate_single h0 h6000 hb

/-- Witness for C1 (amended) at `start = 65.5`, `text = " world "`. -/
theorem claim1_roundtrip_amended_witness :
    parse_lrc (generate_lrc_content [⟨65.5, " world "⟩]) =
      [(parsedOffset 65.5, pyStrip " world ")] ∧
    |parsedOffset 65.5 - 65.5| ≤ 1 / 200 :=
  claim1_roundtrip_amended.1 65.5 " world " (by norm_num) (by norm_num)
    (by decide) (by decide)

/-! ### Claim C2 -/

/-- C2 counterexample: on a track that is not offset-ascending the
short-circuiting scan is not "the last line whose offset ≤ elapsed":
for `[(10,"a"),(0,"b")]` at elapsed 5 the scan stops at the first line
and returns "", while the last line with offset ≤ 5 is `"b"`. -/
theorem claim2_counterexample :
    activeLine [(10, "a"), (0, "b")] 5 = "" ∧
    specLastTextLE [(10, "a"), (0, "b")] 5 = "b" ∧
    activeLine [(10, "a"), (0, "b")] 5 ≠ specLastTextLE [(10, "a"), (0, "b")] 5 := by
  decide

/-- C2 (amended): for every lyric track whose offsets are ascending (as
the spec's own design note assumes), the short-circuiting scan computes
the text of the last line whose offset ≤ elapsedSeconds (empty when
there is none); the concrete ascending examples behave as claimed. -/
theorem claim2_activeLine_amended :
    (∀ (track : List (ℚ × String)) (t : ℚ),
      track.Pairwise (fun p q => p.1 ≤ q.1) →
      activeLine track t = specLastTextLE track t) ∧
    activeLine [(0, "a"), (10, "b"), (20, "c")] 5 = "a" ∧
    activeLine [(0, "a"), (10, "b"), (20, "c")] 15 = "b" ∧
    activeLine [(0, "a"), (10, "b"), (20, "c")] 25 = "c" ∧
    activeLine [(0, "a"), (10, "b"), (20, "c")] (-1) = "" := by
  refine ⟨fun track t hs => ?_, by decide, by decide, by decide, by decide⟩
  rw [activeLine, specLastTextLE, activeLineGo_eq_lastLE hs]

/-- Witness for C2 (amended) on the ascending three-line track. -/
theorem claim2_activeLine_amended_witness :
    activeLine [(0, "a"), (10, "b"), (20, "c")] 15 =
      specLastTextLE [(0, "a"), (10, "b"), (20, "c")] 15 :=
  claim2_activeLine_amended.1 [(0, "a"), (10, "b"), (20, "c")] 15 (by
    norm_num [List.pairwise_cons])

/-! ### Claim C3 -/

/-- C3: for elapsed ≥ 0 and duration > 0 the progress fraction is
`min (elapsed / duration) 1`, lies in `[0, 1]`, and takes the claimed
concrete values. -/
theorem claim3_progress :
    (∀ e d : ℚ, 0 ≤ e → 0 < d →
      progress e d = min (e / d) 1 ∧ 0 ≤ progress e d ∧ progress e d ≤ 1) ∧
    progress 150 120 = 1 ∧ progress 0 120 = 0 ∧ progress 60 120 = 1 / 2 := by
  refine ⟨fun e d he hd => ⟨rfl, ?_, ?_⟩, by decide!, by decide!, by decide!⟩
  · exact le_min (div_nonneg he hd.le) one_pos.le
  · exact min_le_right _ _

/-- Witness for C3 at elapsed 30, duration 120. -/
theorem claim3_progress_witness :
    progress 30 120 = min ((30 : ℚ) / 120) 1 ∧
    0 ≤ progress 30 120 ∧ progress 30 120 ≤ 1 :=
  claim3_progress.1 30 120 (by norm_num) (by norm_num)

/-! ### Claim C4 -/

/-- C4: the parser processes each line independently and in order
(`filterMap` over the split lines, and a left inverse of `"\n".join` on
line-break-free lines), and a line matching the ten-character template
`[DD:DD.DD]rest` contributes exactly one entry whose time is
`minutes * 60 + seconds` (centiseconds included) and whose text is the
rest of the line verbatim. -/
theorem claim4_parser_match :
    (∀ s : String, parse_lrc s = (pySplitlines s).filterMap parseLine) ∧
    (∀ lines : List String, (∀ l ∈ lines, ∀ c ∈ l.data, isLineBreak c = false) →
      parse_lrc (pyJoinNl lines) = lines.filterMap parseLine) ∧
    (∀ (m1 m2 s1 s2 c1 c2 : ℕ) (rest : String), m1 < 10 → m2 < 10 → s1 < 10 →
      s2 < 10 → c1 < 10 → c2 < 10 →
      parseLine ⟨'[' :: digitChar m1 :: digitChar m2 :: ':' :: digitChar s1 ::
          digitChar s2 :: '.' :: digitChar c1 :: digitChar c2 :: ']' :: rest.data⟩ =
        some (((10 * m1 + m2 : ℕ) : ℚ) * 60 + ((10 * s1 + s2 : ℕ) : ℚ) +
          ((10 * c1 + c2 : ℕ) : ℚ) / 100, rest)) := by
  refine ⟨fun s => rfl, fun lines hb => parse_lrc_pyJoinNl hb,
    fun m1 m2 s1 s2 c1 c2 rest h1 h2 h3 h4 h5 h6 => ?_⟩
  rw [parseLine]
  show (parseLineChars ('[' :: digitChar m1 :: digitChar m2 :: ':' :: digitChar s1 ::
    digitChar s2 :: '.' :: digitChar c1 :: digitChar c2 :: ']' :: rest.data)).map _ = _
  rw [parseLineChars]
  rw [if_pos ⟨rfl, isDigit_digitChar _ h1, isDigit_digitChar _ h2, rfl,
    isDigit_digitChar _ h3, isDigit_digitChar _ h4, rfl,
    isDigit_digitChar _ h5, isDigit_digitChar _ h6, rfl⟩]
  rw [digitVal_digitChar _ h1, digitVal_digitChar _ h2, digitVal_digitChar _ h3,
    digitVal_digitChar _ h4, digitVal_digitChar _ h5, digitVal_digitChar _ h6]
  rfl

/-- Witness for C4 on a single-line join. -/
theorem claim4_parser_match_witness :
    parse_lrc (pyJoinNl ["[00:00.00]Hello"]) =
      ["[00:00.00]Hello"].filterMap parseLine :=
  claim4_parser_match.2.1 ["[00:00.00]Hello"] (by decide)

/-! ### Claim C5 -/

/-- C5: the (total) parser yields the empty sequence on the empty string,
rejects the claimed malformed lines, and dropping a non-matching line
from the input leaves the entries of the remaining lines unchanged. -/
theorem claim5_parser_tolerance :
    parse_lrc "" = [] ∧
    parseLine "not a lyric line" = none ∧
    parseLine "[1:2.3]hi" = none ∧
    (∀ (pre post : List String) (bad : String),
      (∀ l ∈ pre ++ post, ∀ c ∈ l.data, isLineBreak c = false) →
      (∀ c ∈ bad.data, isLineBreak c = false) →
      parseLine bad = none →
      parse_lrc (pyJoinNl (pre ++ bad :: post)) =
        parse_lrc (pyJoinNl (pre ++ post))) := by
  refine ⟨by decide, by decide, by decide, fun pre post bad hb hbad hnone => ?_⟩
  rw [parse_lrc_pyJoinNl (by
    intro l hl
    rcases List.mem_append.mp hl with h | h
    · exact hb l (List.mem_append.mpr (Or.inl h))
    · rcases List.mem_cons.mp h with h | h
      · subst h; exact hbad
      · exact hb l (List.mem_append.mpr (Or.inr h)))]
  rw [parse_lrc_pyJoinNl hb]
  rw [List.filterMap_append, List.filterMap_append, List.filterMap_cons, hnone]

/-- Witness for C5: a garbage line between two valid lines changes
nothing. -/
theorem claim5_parser_tolerance_witness :
    parse_lrc (pyJoinNl (["[00:01.00]x"] ++ "garbage" :: ["[00:02.00]y"])) =
      parse_lrc (pyJoinNl (["[00:01.00]x"] ++ ["[00:02.00]y"])) :=
  claim5_parser_tolerance.2.2.2 ["[00:01.00]x"] ["[00:02.00]y"] "garbage"
    (by decide) (by decide) (by decide)

/-! ### Claim C6 -/

/-- C6: the formatter emits one line per segment, newline-joined in input
order (recoverable by `splitlines` when the stripped texts contain no
line boundary); the seconds field is the remainder `start - 60⌊start/60⌋`
in `[0, 60)` rendered as 5 characters; the minutes field is the decimal
value of `⌊start/60⌋` (no wraparound), 2 characters when below 100 and 3
or more from 100 on; a segment with empty text still emits a line with
empty payload. -/
theorem claim6_formatter_shape :
    (∀ segs : List TranscriptSegment,
      generate_lrc_content segs = ⟨joinNl (segs.map fmtSegChars)⟩) ∧
    (∀ segs : List TranscriptSegment,
      (∀ seg ∈ segs, ∀ c ∈ (pyStrip seg.text).data, isLineBreak c = false) →
      pySplitlines (generate_lrc_content segs) =
        segs.map fun seg => (⟨fmtSegChars seg⟩ : String)) ∧
    (∀ start : ℚ, 0 ≤ start - 60 * ⌊start / 60⌋ ∧ start - 60 * ⌊start / 60⌋ < 60) ∧
    (∀ start : ℚ, (format052f (start - 60 * ⌊start / 60⌋)).length = 5) ∧
    (∀ m : ℤ, 0 ≤ m →
      digitsVal (pyFormat02d m) = m.toNat ∧
      (m < 100 → (pyFormat02d m).length = 2) ∧
      (100 ≤ m → 3 ≤ (pyFormat02d m).length)) ∧
    generate_lrc_content [⟨0, ""⟩] = "[00:00.00]" := by
  refine ⟨fun segs => rfl, ?_, remainder_bounds, ?_, ?_, by decide!⟩
  · intro segs hb
    rw [generate_lrc_content, pySplitlines]
    rw [show ((⟨joinNl (segs.map fmtSegChars)⟩ : String)).data =
      joinNl (segs.map fmtSegChars) from rfl]
    rw [splitlines_joinNl (by
        intro l hl
        obtain ⟨seg, hseg, rfl⟩ := List.mem_map.mp hl
        exact noBreak_fmtSegChars (hb seg hseg))
      (by
        intro l hl
        obtain ⟨seg, hseg, rfl⟩ := List.mem_map.mp hl
        exact fmtSegChars_ne_nil seg)]
    rw [List.map_map]
    rfl
  · intro start
    obtain ⟨h0, h60⟩ := remainder_bounds start
    rw [format052f_eq h60]
    rfl
  · intro m hm
    refine ⟨?_, fun h100 => ?_, fun h100 => ?_⟩
    · rw [pyFormat02d, if_neg (by omega), digitsVal_padZeros, digitsVal_natToDigits]
    · rw [pyFormat02d_eq hm h100]
      rfl
    · rw [pyFormat02d, if_neg (by omega)]
      have h3 : 3 ≤ (natToDigits m.toNat).length :=
        three_le_length_natToDigits (by omega)
      simp only [padZeros, List.length_append, List.length_replicate]
      omega

/-- Witness for C6 on a one-segment list and the minutes value 123. -/
theorem claim6_formatter_shape_witness :
    pySplitlines (generate_lrc_content [⟨0, "hi"⟩]) =
      [(⟨fmtSegChars ⟨0, "hi"⟩⟩ : String)] ∧
    digitsVal (pyFormat02d 123) = (123 : ℤ).toNat ∧
    3 ≤ (pyFormat02d 123).length :=
  ⟨claim6_formatter_shape.2.1 [⟨0, "hi"⟩] (by decide),
   (claim6_formatter_shape.2.2.2.2.1 123 (by norm_num)).1,
   (claim6_formatter_shape.2.2.2.2.1 123 (by norm_num)).2.2 (by norm_num)⟩

/-! ### Claim C7 -/

/-- C7 counterexample: the seconds field is *rounded*, not truncated. At
`start = 1/128` the remainder's truncation to centiseconds is 0, yet the
written centisecond count is 1, and the parsed-back offset 1/100 exceeds
the original 1/128. -/
theorem claim7_counterexample :
    parse_lrc (generate_lrc_content [⟨1 / 128, "a"⟩]) = [(1 / 100, "a")] ∧
    ((1 : ℚ) / 128 < 1 / 100) ∧
    ⌊(100 : ℚ) * (1 / 128)⌋ = 0 ∧
    secondsCenti (1 / 128 - 60 * ⌊(1 / 128 : ℚ) / 60⌋) = 1 := by decide!

/-- C7 (amended): for `0 ≤ start < 6000` the seconds field written by
`generate_lrc_content` carries the remainder rounded to the nearest
centisecond (ties to even), so the parsed-back offset is within 0.005 s
of `start` — on either side. -/
theorem claim7_rounding_amended :
    ∀ (start : ℚ) (text : String), 0 ≤ start → start < 6000 →
      (∀ c ∈ (pyStrip text).data, isLineBreak c = false) →
      (parse_lrc (generate_lrc_content [⟨start, text⟩])).map Prod.fst =
        [parsedOffset start] ∧
      parsedOffset start = 60 * ⌊start / 60⌋ +
        ((roundTE (100 * (start - 60 * ⌊start / 60⌋)) : ℤ) : ℚ) / 100 ∧
      |parsedOffset start - start| ≤ 1 / 200 := by
  intro start text h0 h6000 hb
  refine ⟨?_, ?_, abs_parsedOffset_sub_le start⟩
  · rw [@parse_generate_single ⟨start, text⟩ h0 h6000 hb]
    rfl
  · rw [parsedOffset, secondsCenti_cast (remainder_bounds start).1]

/-- Witness for C7 (amended) at `start = 65.5`. -/
theorem claim7_rounding_amended_witness :
    (parse_lrc (generate_lrc_content [⟨65.5, "x"⟩])).map Prod.fst =
      [parsedOffset 65.5] ∧
    parsedOffset 65.5 = 60 * ⌊(65.5 : ℚ) / 60⌋ +
      ((roundTE (100 * (65.5 - 60 * ⌊(65.5 : ℚ) / 60⌋)) : ℤ) : ℚ) / 100 ∧
    |parsedOffset 65.5 - 65.5| ≤ 1 / 200 :=
  claim7_rounding_amended 65.5 "x" (by norm_num) (by norm_num) (by decide)

/-! ### Claim C8 -/

/-- C8 counterexample: highlighting is by text equality with the current
lyric, so before the first line (current lyric `""`) a line whose text is
empty *is* rendered highlighted. -/
theorem claim8_counterexample :
    activeLine [((10 : ℚ), "")] 0 = "" ∧ ((0 : ℚ) < 10) ∧
    fullTextHtml [((10 : ℚ), "")] (activeLine [((10 : ℚ), "")] 0) =
      "<mark><b></b></mark><br>" := by decide

/-- C8 (amended): before the first line's offset the active line is the
empty string and no line with *non-empty* text is rendered highlighted
(empty-text lines are highlighted, because the renderer highlights by
text equality with the active line). -/
theorem claim8_no_highlight_amended :
    ∀ (track : List (ℚ × String)) (t : ℚ) (p₀ : ℚ × String),
      track.head? = some p₀ → t < p₀.1 →
      activeLine track t = "" ∧
      ∀ p ∈ track, p.2 ≠ "" →
        renderLineHtml (activeLine track t) p.2 =
          "<span style=\x27color: #888;\x27>" ++ p.2 ++ "</span><br>" := by
  intro track t p₀ hh ht
  have hact : activeLine track t = "" := activeLine_before_first hh ht
  refine ⟨hact, fun p _ hp2 => ?_⟩
  rw [hact, renderLineHtml, if_neg (by simp [hp2])]

/-- Witness for C8 (amended) on a one-line track at elapsed 0. -/
theorem claim8_no_highlight_amended_witness :
    activeLine [((10 : ℚ), "a")] 0 = "" ∧
    renderLineHtml (activeLine [((10 : ℚ), "a")] 0) "a" =
      "<span style=\x27color: #888;\x27>" ++ "a" ++ "</span><br>" :=
  ⟨(claim8_no_highlight_amended [((10 : ℚ), "a")] 0 (10, "a") rfl (by norm_num)).1,
   (claim8_no_highlight_amended [((10 : ℚ), "a")] 0 (10, "a") rfl (by norm_num)).2
     ((10 : ℚ), "a") (by simp) (by decide)⟩

/-! ### Claim C9 -/

/-- C9 counterexample: the processed-names snapshot is taken before the
loop, so a single batch holding two new files with the same name creates
two entries with that name. -/
theorem claim9_counterexample :
    ((processBatch [] [⟨"a", some (1, [])⟩, ⟨"a", some (2, [])⟩]).1.map Song.name) =
      ["a", "a"] ∧
    ¬((processBatch [] [⟨"a", some (1, [])⟩,
        ⟨"a", some (2, [])⟩]).1.map Song.name).Nodup := by decide

/-- C9 (amended): a file whose name is already in the collection before
the batch is skipped entirely — no duplicate entry, no error report, no
processing — and as long as the *batch itself* carries no duplicate
names, the collection's names stay distinct. -/
theorem claim9_idempotent_amended :
    (∀ (songs : List Song) (pre post : List UploadFile) (f : UploadFile),
      f.name ∈ songs.map Song.name →
      processBatch songs (pre ++ f :: post) = processBatch songs (pre ++ post)) ∧
    (∀ (songs : List Song) (files : List UploadFile),
      (songs.map Song.name).Nodup → (files.map UploadFile.name).Nodup →
      ((processBatch songs files).1.map Song.name).Nodup) := by
  constructor
  · intro songs pre post f hf
    rw [processBatch, processBatch, List.foldl_append, List.foldl_append,
      List.foldl_cons, uploadStep_skip hf]
  · intro songs files hs hf
    exact foldl_uploadStep_nodup _ files songs [] hs hf (fun g _ h => h)

/-- Witness for C9 (amended): re-uploading `"a"` is a no-op, and a fresh
distinct name keeps the collection duplicate-free. -/
theorem claim9_idempotent_amended_witness :
    processBatch [⟨"a", 1, ""⟩] [⟨"a", some (2, [])⟩] =
      processBatch [⟨"a", 1, ""⟩] [] ∧
    ((processBatch [⟨"a", 1, ""⟩] [⟨"b", some (2, [])⟩]).1.map Song.name).Nodup :=
  ⟨claim9_idempotent_amended.1 [⟨"a", 1, ""⟩] [] [] ⟨"a", some (2, [])⟩ (by decide),
   claim9_idempotent_amended.2 [⟨"a", 1, ""⟩] [⟨"b", some (2, [])⟩]
     (by decide) (by decide)⟩

/-! ### Claim C10 -/

/-- C10: a file whose processing raises contributes no song record, is
reported by name in the error list, and the remaining files of the batch
are processed exactly as if the failing file were absent. -/
theorem claim10_error_isolation :
    ∀ (songs : List Song) (pre post : List UploadFile) (f : UploadFile),
      f.result = none →
      (processBatch songs (pre ++ f :: post)).1 =
        (processBatch songs (pre ++ post)).1 ∧
      (f.name ∉ songs.map Song.name →
        f.name ∈ (processBatch songs (pre ++ f :: post)).2) := by
  intro songs pre post f hr
  constructor
  · rw [processBatch, processBatch, List.foldl_append, List.foldl_append,
      List.foldl_cons]
    by_cases hin : f.name ∈ songs.map Song.name
    · rw [uploadStep_skip hin]
    · rw [uploadStep_err hin hr]
      exact foldl_uploadStep_fst post _ _ _ _
  · intro hin
    rw [processBatch, List.foldl_append, List.foldl_cons, uploadStep_err hin hr]
    exact foldl_uploadStep_err_mem post _ _ _ (by simp)

/-- Witness for C10: a failing file between two successful ones. -/
theorem claim10_error_isolation_witness :
    (processBatch [] [⟨"x", some (1, [])⟩, ⟨"bad", none⟩, ⟨"y", some (2, [])⟩]).1 =
      (processBatch [] [⟨"x", some (1, [])⟩, ⟨"y", some (2, [])⟩]).1 ∧
    "bad" ∈ (processBatch [] [⟨"x", some (1, [])⟩, ⟨"bad", none⟩,
      ⟨"y", some (2, [])⟩]).2 :=
  ⟨(claim10_error_isolation [] [⟨"x", some (1, [])⟩] [⟨"y", some (2, [])⟩]
      ⟨"bad", none⟩ rfl).1,
   (claim10_error_isolation [] [⟨"x", some (1, [])⟩] [⟨"y", some (2, [])⟩]
      ⟨"bad", none⟩ rfl).2 (by decide)⟩

end LyricSync
